import Mathlib

/-!
# A shallow embedding of the divans codec core

This file embeds, in Lean, the probability models (`src/probability.rs`), the
relevant parts of the command state machine (`src/codec/mod.rs`) and of the
threaded decoder (`src/codec/decoder.rs`) of the divans compression codec, and
proves or refutes the specification's claims about them.

Machine integers are modelled as `Int`/`Nat` with explicit wrapping:
* `wrap16` is two's-complement reduction to `i16`, `wrap32` to `i32`;
* Rust's arithmetic right shift `x >> k` on a signed integer is floor division
  by `2^k`; Lean's `Int` division is Euclidean division, which agrees with
  floor division whenever the divisor is positive, so `x >> k` is written
  `x / 2^k` (with the power expanded to a literal).
-/

namespace Divans

/-- Two's-complement reduction of an integer into the `i16` range
`[-32768, 32767]`. -/
def wrap16 (x : Int) : Int := (x + 32768) % 65536 - 32768

/-- Two's-complement reduction of an integer into the `i32` range. -/
def wrap32 (x : Int) : Int := (x + 2147483648) % 4294967296 - 2147483648

theorem wrap16_eq_self {x : Int} (h0 : -32768 ≤ x) (h1 : x ≤ 32767) :
    wrap16 x = x := by
  unfold wrap16; omega

theorem wrap32_eq_self {x : Int} (h0 : -2147483648 ≤ x) (h1 : x ≤ 2147483647) :
    wrap32 x = x := by
  unfold wrap32; omega

/-- `Speed`: the qualitative update-rate enum (`src/probability.rs`). -/
inductive Speed
  | GEOLOGIC
  | GLACIAL
  | MUD
  | SLOW
  | MED
  | FAST
  | PLANE
  | ROCKET
deriving DecidableEq

/-! ## CDF2 (`src/probability.rs` lines 58-119)

The two counters are `u8` values, modelled as `Nat` (with explicit `% 256`
where the source uses wrapping arithmetic); `prob` is a `u8`. -/

structure CDF2 where
  counts : Nat × Nat
  prob : Nat
deriving DecidableEq

/-- `CDF2::default`: counters `[1, 1]`, probability `128`. -/
def CDF2.default : CDF2 := { counts := (1, 1), prob := 128 }

/-- `CDF2::blend` (`src/probability.rs` lines 94-118).  `counts[0]` is the
counter for symbol `false`, `counts[1]` for symbol `true`.  The `u16`
expression `(counts[0] << 8) / …` is cast back to `u8`, hence the `% 256`. -/
def CDF2.blend (c : CDF2) (symbol : Bool) (_speed : Speed) : CDF2 :=
  let fcount := c.counts.1
  let tcount := c.counts.2
  let obsCount := if symbol then tcount else fcount
  let overflow := obsCount == 255
  let obsCount1 := (obsCount + 1) % 256
  if overflow then
    let notObsCount := if symbol then fcount else tcount
    if notObsCount == 1 then
      { counts := if symbol then (fcount, 255) else (255, tcount),
        prob := if symbol then 0 else 255 }
    else
      let half0 := (1 + fcount) / 2
      let half1 := (1 + tcount) / 2
      let c0 := if symbol then half0 else 129
      let c1 := if symbol then 129 else half1
      { counts := (c0, c1), prob := c0 * 256 / (c0 + c1) % 256 }
  else
    let c0 := if symbol then fcount else obsCount1
    let c1 := if symbol then obsCount1 else tcount
    { counts := (c0, c1), prob := c0 * 256 / (fcount + tcount + 1) % 256 }

/-- `BaseCDF::cdf` for `CDF2` (`src/probability.rs` lines 75-81):
`cdf(0) = prob`, `cdf(1) = 256 - prob` (as signed 16-bit `Prob`). -/
def CDF2.cdf (c : CDF2) (symbol : Fin 2) : Int :=
  if (symbol : Nat) = 0 then (c.prob : Int) else 256 - (c.prob : Int)

/-- The default `BaseCDF::pdf` method (`src/probability.rs` lines 16-23)
instantiated at `CDF2`: `pdf(0) = cdf(0)`, `pdf(s) = cdf(s) - cdf(s-1)`. -/
def CDF2.pdf (c : CDF2) (symbol : Fin 2) : Int :=
  if (symbol : Nat) = 0 then c.cdf symbol
  else wrap16 (c.cdf symbol - c.cdf ⟨(symbol : Nat) - 1, by omega⟩)

/-- States of `CDF2` reachable from the default state by blending. -/
inductive CDF2.Reachable : CDF2 → Prop
  | default : CDF2.Reachable CDF2.default
  | blend {c : CDF2} (h : CDF2.Reachable c) (symbol : Bool) (speed : Speed) :
      CDF2.Reachable (c.blend symbol speed)

/-! ## FrequentistCDF16 (`src/probability.rs` lines 286-400)

The sixteen cumulative probabilities are `i16` (`Prob`) values. -/

structure FrequentistCDF16 where
  cdf : Fin 16 → Int

@[ext] theorem FrequentistCDF16.ext_cdf {a b : FrequentistCDF16}
    (h : ∀ i, a.cdf i = b.cdf i) : a = b := by
  cases a; cases b; simp only [FrequentistCDF16.mk.injEq]; exact funext h

/-- `FrequentistCDF16::default`: the arithmetic table `[4, 8, …, 64]`. -/
def FrequentistCDF16.default : FrequentistCDF16 :=
  ⟨![4, 8, 12, 16, 20, 24, 28, 32, 36, 40, 44, 48, 52, 56, 60, 64]⟩

/-- The speed-dependent increment of `FrequentistCDF16::blend`
(`src/probability.rs` lines 379-389). -/
def FrequentistCDF16.speedIncrement : Speed → Int
  | .GEOLOGIC => 1
  | .GLACIAL => 4
  | .MUD => 16
  | .SLOW => 32
  | .MED => 48
  | .FAST => 96
  | .PLANE => 128
  | .ROCKET => 384

/-- The constant `CDF_BIAS` array `[1, 2, …, 16]` of `FrequentistCDF16::blend`. -/
def FrequentistCDF16.cdfBias : Fin 16 → Int :=
  ![1, 2, 3, 4, 5, 6, 7, 8, 9, 10, 11, 12, 13, 14, 15, 16]

/-- `FrequentistCDF16::blend` (`src/probability.rs` lines 377-399): add the
speed increment (wrapping) to buckets `symbol..15`; if `cdf[15]` then reaches
`32767 - 16 - 384`, renormalize every bucket with
`cdf[i] ← (cdf[i] + bias[i]) - ((cdf[i] + bias[i]) >> 2)` (all ops wrapping). -/
def FrequentistCDF16.blend (c : FrequentistCDF16) (symbol : Fin 16)
    (speed : Speed) : FrequentistCDF16 :=
  let increment := FrequentistCDF16.speedIncrement speed
  let cdf1 : Fin 16 → Int := fun i =>
    if (symbol : Nat) ≤ (i : Nat) then wrap16 (c.cdf i + increment) else c.cdf i
  let limit : Int := 32767 - 16 - 384
  if limit ≤ cdf1 15 then
    ⟨fun i =>
      wrap16 (wrap16 (cdf1 i + FrequentistCDF16.cdfBias i) -
        wrap16 (cdf1 i + FrequentistCDF16.cdfBias i) / 4)⟩
  else
    ⟨cdf1⟩

/-- `BaseCDF::cdf` for `FrequentistCDF16` (`src/probability.rs` line 361). -/
def FrequentistCDF16.cdfAt (c : FrequentistCDF16) (symbol : Fin 16) : Int :=
  c.cdf symbol

/-- `BaseCDF::max` for `FrequentistCDF16` (`src/probability.rs` line 357). -/
def FrequentistCDF16.maxProb (c : FrequentistCDF16) : Int :=
  c.cdf 15

/-- The default `BaseCDF::pdf` method instantiated at `FrequentistCDF16`. -/
def FrequentistCDF16.pdf (c : FrequentistCDF16) (symbol : Fin 16) : Int :=
  if (symbol : Nat) = 0 then c.cdfAt symbol
  else wrap16 (c.cdfAt symbol - c.cdfAt ⟨(symbol : Nat) - 1, by omega⟩)

/-- States of `FrequentistCDF16` reachable from the default state. -/
inductive FrequentistCDF16.Reachable : FrequentistCDF16 → Prop
  | default : FrequentistCDF16.Reachable FrequentistCDF16.default
  | blend {c : FrequentistCDF16} (h : FrequentistCDF16.Reachable c)
      (symbol : Fin 16) (speed : Speed) :
      FrequentistCDF16.Reachable (c.blend symbol speed)

/-! ## BlendCDF16 (`src/probability.rs` lines 145-229, 424-499)

`cdf` holds `i16` values, `mix_rate` and `count` are `i32`. -/

structure BlendCDF16 where
  cdf : Fin 16 → Int
  mix_rate : Int
  count : Int

@[ext] theorem BlendCDF16.ext_state {a b : BlendCDF16}
    (hc : ∀ i, a.cdf i = b.cdf i) (hm : a.mix_rate = b.mix_rate)
    (hn : a.count = b.count) : a = b := by
  cases a; cases b
  simp only [BlendCDF16.mk.injEq]
  exact ⟨funext hc, hm, hn⟩

/-- `BlendCDF16::default`: zero table, `mix_rate = (1 << 10) + (1 << 9)`,
`count = 0`. -/
def BlendCDF16.default : BlendCDF16 :=
  { cdf := fun _ => 0, mix_rate := 1024 + 512, count := 0 }

/-- `to_blend_lut` (`src/probability.rs` lines 479-499): row `symbol` of
`CDF_SELECTOR`, whose entry `i` is `DEL = CDF_MAX - 16 = 32751` iff
`i ≥ symbol` and `0` otherwise. -/
def to_blend_lut (symbol : Fin 16) : Fin 16 → Int :=
  fun i => if (symbol : Nat) ≤ (i : Nat) then 32751 else 0

/-- `mul_blend` (`src/probability.rs` lines 424-464): per bucket, the `i32`
computation `(to_blend[i]*blend + baseline[i]*(SCALE - blend) + bias) >> 15`,
cast back to `i16`.  `SCALE = 1 << 15`. -/
def mul_blend (baseline : Fin 16 → Int) (symbol : Fin 16)
    (blend bias : Int) : Fin 16 → Int :=
  let scale_minus_blend := wrap32 (32768 - blend)
  fun i =>
    wrap16 (wrap32 (wrap32 (to_blend_lut symbol i * blend) +
      wrap32 (wrap32 (baseline i * scale_minus_blend) + bias)) / 32768)

/-- `BlendCDF16::blend` (`src/probability.rs` lines 205-228).  The source
computes a speed-dependent `_mix_rate` but never uses it (the underscore
binding is dead); the live mix rate is the field `self.mix_rate`, geometrically
decayed by `1/128` per update.  The bias passed to `mul_blend` is
`(count & 0xf) << (BLEND_FIXED_POINT_PRECISION - 4)`; `count & 0xf` on a
two's-complement `i32` is `count % 16` with a non-negative remainder. -/
def BlendCDF16.blend (c : BlendCDF16) (symbol : Fin 16) (speed : Speed) :
    BlendCDF16 :=
  let count1 := wrap32 (c.count + 1)
  let _mix_rate : Int := match speed with
    | .GEOLOGIC => 32
    | .GLACIAL => 64
    | .MUD => 160
    | .SLOW => 512
    | .MED => 192
    | .FAST => 256
    | .PLANE => 384
    | .ROCKET => 1100
  let cdf1 := mul_blend c.cdf symbol c.mix_rate (count1 % 16 * 2048)
  let mix1 := wrap32 (c.mix_rate - c.mix_rate / 128)
  let cdf2 : Fin 16 → Int :=
    if cdf1 15 < wrap16 ((32767 - 16) - cdf1 15 / 2) then
      fun i => wrap16 (cdf1 i + cdf1 i / 2)
    else cdf1
  { cdf := cdf2, mix_rate := mix1, count := count1 }

/-- `BaseCDF::cdf` for `BlendCDF16` (`src/probability.rs` lines 182-193):
symbol 15 reads `max()`; below that, the stored value plus the latent bias
`(CDF_MAX - cdf[15]) * (symbol + 1) >> 4` (an `i32` product shifted and cast
back to `i16`, added with `i16` arithmetic). -/
def BlendCDF16.cdfAt (c : BlendCDF16) (symbol : Fin 16) : Int :=
  if (symbol : Nat) = 15 then 32767
  else
    let bias := wrap16 (32767 - c.cdf 15)
    wrap16 (c.cdf symbol + wrap16 (bias * ((symbol : Nat) + 1) / 16))

/-- `BaseCDF::max` for `BlendCDF16` (`src/probability.rs` lines 176-178). -/
def BlendCDF16.maxProb (_c : BlendCDF16) : Int := 32767

/-- The default `BaseCDF::pdf` method instantiated at `BlendCDF16`. -/
def BlendCDF16.pdf (c : BlendCDF16) (symbol : Fin 16) : Int :=
  if (symbol : Nat) = 0 then c.cdfAt symbol
  else wrap16 (c.cdfAt symbol - c.cdfAt ⟨(symbol : Nat) - 1, by omega⟩)

/-- States of `BlendCDF16` reachable from the default state. -/
inductive BlendCDF16.Reachable : BlendCDF16 → Prop
  | default : BlendCDF16.Reachable BlendCDF16.default
  | blend {c : BlendCDF16} (h : BlendCDF16.Reachable c)
      (symbol : Fin 16) (speed : Speed) :
      BlendCDF16.Reachable (c.blend symbol speed)

/-! ## ExternalProbCDF16 (`src/probability.rs` lines 231-284) -/

structure ExternalProbCDF16 where
  cdf : Fin 16 → Int
  nibble : Nat
  maxp : Int

/-- `ExternalProbCDF16::default` (`src/probability.rs` lines 238-246).  The
source initializer for `maxp` is the Rust expression `(1<<15 - 1)`; Rust's
shift operator binds more loosely than subtraction, so the compiler parses it
as `1 << (15 - 1)`, written here with the parenthesization Rust actually
applies. -/
def ExternalProbCDF16.default : ExternalProbCDF16 :=
  { cdf := fun _ => 0, nibble := 0, maxp := 2 ^ (15 - 1) }

/-- `BaseCDF::max` for `ExternalProbCDF16` (`src/probability.rs` 267-269). -/
def ExternalProbCDF16.maxProb (c : ExternalProbCDF16) : Int := c.maxp

/-- `CDF16::blend` for `ExternalProbCDF16` (`src/probability.rs` 280-284):
a no-op. -/
def ExternalProbCDF16.blend (c : ExternalProbCDF16) (_symbol : Fin 16)
    (_speed : Speed) : ExternalProbCDF16 := c

/-! ## Claim C10: `ExternalProbCDF16::default` sets `maxp` to `1 << 14` -/

/-- **C10.** `ExternalProbCDF16::default()` initializes `maxp` — the value
returned by `max()` — to `1 << 14 = 16384`, because `(1<<15 - 1)` parses as
`1 << (15 - 1)` rather than `(1<<15) - 1 = 32767`. -/
theorem claim_C10 :
    ExternalProbCDF16.default.maxProb = 16384 ∧
      (16384 : Int) = 2 ^ 14 ∧ ExternalProbCDF16.default.maxProb ≠ 32767 := by
  refine ⟨rfl, by norm_num, ?_⟩
  decide

/-! ## Claim C9: `BlendCDF16::blend` ignores its `Speed` argument -/

/-- **C9.** For every `BlendCDF16` state, symbol, and any two speeds, blending
with either speed produces identical states: the `Speed` argument of
`BlendCDF16::blend` is dead (the source binds it to the unused `_mix_rate`). -/
theorem claim_C9 (c : BlendCDF16) (s : Fin 16) (v1 v2 : Speed) :
    c.blend s v1 = c.blend s v2 := by
  cases v1 <;> cases v2 <;> rfl

/-! ## Claim C4: the `CDF2::blend` update rule

The claim's saturation cases match the source, but its final probability
formula does not: the source divides by the sum of the *resulting* counters
(`fcount + tcount + 1` with the pre-update counters in the non-overflow branch,
`counts[0] + counts[1]` post-update in the halving branch), never by that sum
plus one. -/

/-- The non-saturating branches of `CDF2::blend`, as the amended claim
describes them: increment the observed counter (halving both, rounding up, and
re-seeding the observed one to `129` on overflow), then recompute
`prob = (count0 << 8) / (count0 + count1)` from the **resulting** counters. -/
def CDF2.blendDescribed (c : CDF2) (symbol : Bool) : CDF2 :=
  let c0 := c.counts.1
  let c1 := c.counts.2
  let obs := if symbol then c1 else c0
  let opp := if symbol then c0 else c1
  if obs = 255 then
    if opp = 1 then
      { counts := if symbol then (c0, 255) else (255, c1),
        prob := if symbol then 0 else 255 }
    else
      let oppHalved := (opp + 1) / 2
      let d0 := if symbol then oppHalved else 129
      let d1 := if symbol then 129 else oppHalved
      { counts := (d0, d1), prob := d0 * 256 / (d0 + d1) }
  else
    let d0 := if symbol then c0 else obs + 1
    let d1 := if symbol then obs + 1 else c1
    { counts := (d0, d1), prob := d0 * 256 / (d0 + d1) }

/-- A quotient `a * 256 / (a + b)` with `b > 0` is below 256, so the `u8` cast
in `CDF2::blend` never truncates. -/
theorem cdf2_prob_lt_256 (a b : Nat) (hb : 0 < b) :
    a * 256 / (a + b) % 256 = a * 256 / (a + b) := by
  refine Nat.mod_eq_of_lt ?_
  rw [Nat.div_lt_iff_lt_mul (by omega)]
  omega

/-- **C4, counterexample.** Blending symbol `false` into the default state
gives resulting counters `(2, 1)` and `prob = 2 * 256 / (2 + 1) = 170`,
whereas the claimed formula `(count0 << 8) / (count0 + count1 + 1)` over the
resulting counters would give `2 * 256 / (2 + 1 + 1) = 128`. -/
theorem claim_C4_counterexample :
    (CDF2.default.blend false .MED).counts = (2, 1) ∧
      (CDF2.default.blend false .MED).prob = 170 ∧
      2 * 256 / (2 + 1 + 1) = 128 ∧ (CDF2.default.blend false .MED).prob ≠ 128 := by
  refine ⟨by decide, by decide, by norm_num, by decide⟩

/-- **C4, amended.** `CDF2::blend(symbol, speed)` on a valid state (both `u8`
counters in `[1, 255]`): if the observed counter is at 255 and the opposite
counter equals 1, the observed counter is pinned to 255 and `prob` saturates
to 0 (symbol 1) or 255 (symbol 0); if the observed counter is at 255 and the
opposite counter exceeds 1, both counters are halved rounding up, the observed
one is set to 129; and in every non-saturating case `prob` is recomputed as
`(count0 << 8) / (count0 + count1)` from the resulting counters. -/
theorem claim_C4 (c : CDF2) (symbol : Bool) (speed : Speed)
    (h01 : 1 ≤ c.counts.1) (h02 : c.counts.1 ≤ 255)
    (h11 : 1 ≤ c.counts.2) (h12 : c.counts.2 ≤ 255) :
    c.blend symbol speed = c.blendDescribed symbol := by
  obtain ⟨⟨c0, c1⟩, p⟩ := c
  simp only at h01 h02 h11 h12
  cases symbol
  · by_cases h255 : c0 = 255
    · subst h255
      by_cases hseen : c1 = 1
      · subst hseen
        simp [CDF2.blend, CDF2.blendDescribed]
      · simp only [CDF2.blend, CDF2.blendDescribed, if_false, Bool.false_eq_true,
          beq_self_eq_true, if_true, beq_iff_eq, hseen, reduceIte]
        rw [cdf2_prob_lt_256 _ _ (by omega)]
        have h1 : 1 + c1 = c1 + 1 := by omega
        rw [h1]
    · have hb : (c0 == 255) = false := by simp [h255]
      simp only [CDF2.blend, CDF2.blendDescribed, if_false, Bool.false_eq_true,
        hb, h255, reduceIte]
      have h1 : (c0 + 1) % 256 = c0 + 1 := by omega
      have h2 : c0 + c1 + 1 = c0 + 1 + c1 := by omega
      rw [h1, h2, cdf2_prob_lt_256 _ _ (by omega)]
  · by_cases h255 : c1 = 255
    · subst h255
      by_cases hseen : c0 = 1
      · subst hseen
        simp [CDF2.blend, CDF2.blendDescribed]
      · simp only [CDF2.blend, CDF2.blendDescribed, if_true, Bool.false_eq_true,
          if_false, beq_self_eq_true, beq_iff_eq, hseen, reduceIte]
        rw [cdf2_prob_lt_256 _ _ (by omega)]
        have h1 : 1 + c0 = c0 + 1 := by omega
        rw [h1]
    · have hb : (c1 == 255) = false := by simp [h255]
      simp only [CDF2.blend, CDF2.blendDescribed, if_true, Bool.false_eq_true,
        if_false, hb, h255, reduceIte]
      have h1 : (c1 + 1) % 256 = c1 + 1 := by omega
      have h2 : c0 + c1 + 1 = c0 + (c1 + 1) := by omega
      rw [h1, h2, cdf2_prob_lt_256 _ _ (by omega)]

/-- Witness for C4: the amended rule evaluated at the default state. -/
theorem claim_C4_witness :
    CDF2.default.blend false Speed.MED = CDF2.default.blendDescribed false :=
  claim_C4 CDF2.default false Speed.MED (by decide) (by decide) (by decide)
    (by decide)

/-! ## Claim C5: the `FrequentistCDF16::blend` update rule -/

/-- The ordinal of a `Speed` level (GEOLOGIC first, ROCKET last). -/
def Speed.index : Speed → Fin 8
  | .GEOLOGIC => 0
  | .GLACIAL => 1
  | .MUD => 2
  | .SLOW => 3
  | .MED => 4
  | .FAST => 5
  | .PLANE => 6
  | .ROCKET => 7

/-- `FrequentistCDF16::blend` as the claim describes it: a speed-dependent
increment `d` — `1, 4, 16, 32, 48, 96, 128, 384` for the eight speeds GEOLOGIC
through ROCKET — is added with wrapping arithmetic to every bucket
`i ∈ [s, 15]`; afterwards, if `cdf[15] ≥ 32767 - 16 - 384`, every bucket
`i ∈ [0, 15]` is renormalized as
`cdf[i] ← (cdf[i] + bias[i]) - ((cdf[i] + bias[i]) >> 2)` with
`bias = (1, 2, …, 16)`. -/
def FrequentistCDF16.blendDescribed (c : FrequentistCDF16) (s : Fin 16)
    (sp : Speed) : FrequentistCDF16 :=
  let d : Int := ![1, 4, 16, 32, 48, 96, 128, 384] (Speed.index sp)
  let incremented : Fin 16 → Int := fun i =>
    if (s : Nat) ≤ (i : Nat) then wrap16 (c.cdf i + d) else c.cdf i
  if 32767 - 16 - 384 ≤ incremented 15 then
    ⟨fun i =>
      wrap16 (wrap16 (incremented i + (((i : Nat) : Int) + 1)) -
        wrap16 (incremented i + (((i : Nat) : Int) + 1)) / 4)⟩
  else
    ⟨incremented⟩

/-- **C5.** `FrequentistCDF16::blend(s, speed)` behaves exactly as the claim
describes: add the per-speed increment (1, 4, 16, 32, 48, 96, 128, 384) with
wrapping arithmetic to buckets `s..15`, then, when `cdf[15] ≥ 32767 - 16 - 384`,
renormalize every bucket by `(cdf[i] + bias[i]) - ((cdf[i] + bias[i]) >> 2)`
with `bias = (1, …, 16)`. -/
theorem claim_C5 (c : FrequentistCDF16) (s : Fin 16) (sp : Speed) :
    c.blend s sp = c.blendDescribed s sp := by
  have hbias : ∀ i : Fin 16,
      FrequentistCDF16.cdfBias i = ((i : Nat) : Int) + 1 := by decide
  have hinc : ∀ sp' : Speed,
      (![1, 4, 16, 32, 48, 96, 128, 384] : Fin 8 → Int) (Speed.index sp') =
        FrequentistCDF16.speedIncrement sp' := fun sp' => by
    cases sp' <;> rfl
  simp only [FrequentistCDF16.blend, FrequentistCDF16.blendDescribed,
    hbias, hinc]

/-! ## The inductive invariant of `FrequentistCDF16` -/

/-- Invariant of reachable `FrequentistCDF16` states: positive first bucket,
strictly increasing table, and top bucket strictly below the renormalization
threshold `32767 - 16 - 384 = 32367`. -/
def FrequentistCDF16.Inv (c : FrequentistCDF16) : Prop :=
  0 < c.cdf 0 ∧ (∀ i : Fin 15, c.cdf i.castSucc < c.cdf i.succ) ∧
    c.cdf 15 < 32367

theorem FrequentistCDF16.default_inv : FrequentistCDF16.default.Inv := by
  refine ⟨by decide, by decide, by decide⟩

theorem FrequentistCDF16.blend_inv {c : FrequentistCDF16} (h : c.Inv)
    (s : Fin 16) (sp : Speed) : (c.blend s sp).Inv := by
  obtain ⟨h0, hlt, h15⟩ := h
  have hmono : Monotone c.cdf :=
    (Fin.strictMono_iff_lt_succ.2 hlt).monotone
  have hub : ∀ i, c.cdf i ≤ c.cdf 15 := fun i => hmono (Fin.le_last i)
  have hlb : ∀ i, 0 < c.cdf i := fun i => lt_of_lt_of_le h0 (hmono (Fin.zero_le i))
  have hinc1 : 1 ≤ FrequentistCDF16.speedIncrement sp := by cases sp <;> decide
  have hinc2 : FrequentistCDF16.speedIncrement sp ≤ 384 := by cases sp <;> decide
  set inc := FrequentistCDF16.speedIncrement sp with hincdef
  set f : Fin 16 → Int := fun i =>
    if (s : Nat) ≤ (i : Nat) then wrap16 (c.cdf i + inc) else c.cdf i with hf
  have hfeq : ∀ i, f i = if (s : Nat) ≤ (i : Nat) then c.cdf i + inc else c.cdf i := by
    intro i
    have h1 := hub i
    have h2 := hlb i
    by_cases hsi : (s : Nat) ≤ (i : Nat)
    · simp only [hf]
      rw [if_pos hsi, if_pos hsi]
      exact wrap16_eq_self (by omega) (by omega)
    · simp only [hf]
      rw [if_neg hsi, if_neg hsi]
  have hf0 : 0 < f 0 := by
    rw [hfeq]
    have h1 := hlb 0
    split_ifs <;> omega
  have hfstep : ∀ i : Fin 15, f i.castSucc < f i.succ := by
    intro i
    rw [hfeq, hfeq]
    have h1 := hlt i
    have h2 : (i.castSucc : Nat) = (i : Nat) := rfl
    have h3 : (i.succ : Nat) = (i : Nat) + 1 := rfl
    rw [h2, h3]
    split_ifs <;> omega
  have hfub : ∀ i, f i ≤ f 15 :=
    fun i => ((Fin.strictMono_iff_lt_succ.2 hfstep).monotone) (Fin.le_last i)
  have hflb : ∀ i, 0 < f i :=
    fun i => lt_of_lt_of_le hf0 ((Fin.strictMono_iff_lt_succ.2 hfstep).monotone (Fin.zero_le i))
  have hf15 : f 15 = c.cdf 15 + inc := by
    have hv : ((15 : Fin 16) : Nat) = 15 := rfl
    have hcond : (s : Nat) ≤ ((15 : Fin 16) : Nat) := by
      rw [hv]
      have := s.isLt
      omega
    rw [hfeq, if_pos hcond]
  have hblend : c.blend s sp =
      if (32767 - 16 - 384 : Int) ≤ f 15 then
        ⟨fun i =>
          wrap16 (wrap16 (f i + FrequentistCDF16.cdfBias i) -
            wrap16 (f i + FrequentistCDF16.cdfBias i) / 4)⟩
      else ⟨f⟩ := rfl
  have hbias1 : ∀ i : Fin 16, 1 ≤ FrequentistCDF16.cdfBias i := by decide
  have hbias2 : ∀ i : Fin 16, FrequentistCDF16.cdfBias i ≤ 16 := by decide
  have hbiasstep : ∀ i : Fin 15,
      FrequentistCDF16.cdfBias i.succ = FrequentistCDF16.cdfBias i.castSucc + 1 := by
    decide
  rw [hblend]
  split_ifs with hcase
  · -- renormalization applies
    have hx : ∀ i : Fin 16,
        wrap16 (wrap16 (f i + FrequentistCDF16.cdfBias i) -
            wrap16 (f i + FrequentistCDF16.cdfBias i) / 4) =
          (f i + FrequentistCDF16.cdfBias i) -
            (f i + FrequentistCDF16.cdfBias i) / 4 := by
      intro i
      have h1 := hflb i
      have h2 := hfub i
      have h3 := hbias1 i
      have h4 := hbias2 i
      have h5 : f 15 ≤ 32750 := by rw [hf15]; have := hub 15; omega
      rw [wrap16_eq_self (x := f i + FrequentistCDF16.cdfBias i) (by omega) (by omega)]
      rw [wrap16_eq_self (by omega) (by omega)]
    refine ⟨?_, ?_, ?_⟩
    · show (0 : Int) < wrap16 _
      rw [hx 0]
      have h1 := hflb 0
      have h3 := hbias1 0
      have h4 := hbias2 0
      have h2 := hfub 0
      have h5 : f 15 ≤ 32750 := by rw [hf15]; have := hub 15; omega
      omega
    · intro i
      show wrap16 _ < wrap16 _
      rw [hx i.castSucc, hx i.succ]
      have h1 := hfstep i
      have h2 := hbiasstep i
      have h3 := hflb i.castSucc
      have h4 := hfub i.succ
      have h5 : f 15 ≤ 32750 := by rw [hf15]; have := hub 15; omega
      have h6 := hbias1 i.castSucc
      have h7 := hbias2 i.castSucc
      omega
    · show wrap16 _ < 32367
      rw [hx 15]
      have h1 := hflb 15
      have h5 : f 15 ≤ 32750 := by rw [hf15]; have := hub 15; omega
      have h6 := hbias2 15
      have h7 := hbias1 15
      omega
  · -- no renormalization
    refine ⟨hf0, hfstep, ?_⟩
    show f 15 < 32367
    omega

/-- Every reachable `FrequentistCDF16` state satisfies the invariant. -/
theorem FrequentistCDF16.reachable_satisfies_inv {c : FrequentistCDF16}
    (h : c.Reachable) : c.Inv := by
  induction h with
  | default => exact FrequentistCDF16.default_inv
  | blend _ s sp ih => exact FrequentistCDF16.blend_inv ih s sp

/-! ## The inductive invariant of `BlendCDF16` -/

/-- Invariant of reachable `BlendCDF16` states: a non-negative, non-decreasing
stored table whose top entry stays at most `DEL = CDF_MAX - 16 = 32751`
(exactly the `debug_assert` of `BlendCDF16::blend`), with the live mix rate in
`[1, 32768]`. -/
def BlendCDF16.Inv (c : BlendCDF16) : Prop :=
  (∀ i, 0 ≤ c.cdf i) ∧ (∀ i : Fin 15, c.cdf i.castSucc ≤ c.cdf i.succ) ∧
    c.cdf 15 ≤ 32751 ∧ 1 ≤ c.mix_rate ∧ c.mix_rate ≤ 32768

theorem BlendCDF16.default_state_inv : BlendCDF16.default.Inv :=
  ⟨fun _ => le_refl 0, fun _ => le_refl 0, by decide, by decide, by decide⟩

theorem to_blend_lut_nonneg (s i : Fin 16) : 0 ≤ to_blend_lut s i := by
  unfold to_blend_lut
  split_ifs <;> norm_num

theorem to_blend_lut_le (s i : Fin 16) : to_blend_lut s i ≤ 32751 := by
  unfold to_blend_lut
  split_ifs <;> norm_num

theorem to_blend_lut_step (s : Fin 16) (i : Fin 15) :
    to_blend_lut s i.castSucc ≤ to_blend_lut s i.succ := by
  unfold to_blend_lut
  have h2 : (i.castSucc : Nat) = (i : Nat) := rfl
  have h3 : (i.succ : Nat) = (i : Nat) + 1 := rfl
  rw [h2, h3]
  split_ifs <;> omega

/-- Under the invariant's bounds, every `i32` intermediate of `mul_blend`
stays in range, so the wrapped computation is the plain arithmetic
`(to_blend[i]*blend + baseline[i]*(SCALE - blend) + bias) >> 15`. -/
theorem mul_blend_eq (baseline : Fin 16 → Int) (s : Fin 16) (blend bias : Int)
    (hb0 : ∀ i, 0 ≤ baseline i) (hble : ∀ i, baseline i ≤ 32751)
    (hm1 : 1 ≤ blend) (hm2 : blend ≤ 32768)
    (hbias0 : 0 ≤ bias) (hbias1 : bias ≤ 30720) :
    ∀ i, mul_blend baseline s blend bias i =
      (to_blend_lut s i * blend + (baseline i * (32768 - blend) + bias)) /
        32768 := by
  intro i
  have htb0 := to_blend_lut_nonneg s i
  have htb1 := to_blend_lut_le s i
  have h1 : 0 ≤ to_blend_lut s i * blend := mul_nonneg htb0 (by omega)
  have h1' : to_blend_lut s i * blend ≤ 32751 * blend :=
    mul_le_mul_of_nonneg_right htb1 (by omega)
  have h3 : 0 ≤ baseline i * (32768 - blend) := mul_nonneg (hb0 i) (by omega)
  have h3' : baseline i * (32768 - blend) ≤ 32751 * (32768 - blend) :=
    mul_le_mul_of_nonneg_right (hble i) (by omega)
  have hsum : 32751 * blend + 32751 * (32768 - blend) = 32751 * 32768 := by
    ring
  unfold mul_blend
  rw [wrap32_eq_self (x := 32768 - blend) (by omega) (by omega)]
  rw [wrap32_eq_self (x := to_blend_lut s i * blend) (by omega) (by omega)]
  rw [wrap32_eq_self (x := baseline i * (32768 - blend)) (by omega) (by omega)]
  rw [wrap32_eq_self (x := baseline i * (32768 - blend) + bias) (by omega)
    (by omega)]
  rw [wrap32_eq_self
    (x := to_blend_lut s i * blend + (baseline i * (32768 - blend) + bias))
    (by omega) (by omega)]
  rw [wrap16_eq_self (by omega) (by omega)]

theorem BlendCDF16.blend_state_inv {c : BlendCDF16} (h : c.Inv) (s : Fin 16)
    (sp : Speed) : (c.blend s sp).Inv := by
  obtain ⟨hnn, hstep, h15, hm1, hm2⟩ := h
  have hmono : Monotone c.cdf := Fin.monotone_iff_le_succ.2 hstep
  have hub : ∀ i, c.cdf i ≤ c.cdf 15 := fun i => hmono (Fin.le_last i)
  have hble : ∀ i, c.cdf i ≤ 32751 := fun i => le_trans (hub i) h15
  set count1 := wrap32 (c.count + 1) with hcount1
  set bias := count1 % 16 * 2048 with hbias
  have hr0 : 0 ≤ count1 % 16 := Int.emod_nonneg count1 (by norm_num)
  have hr1 : count1 % 16 < 16 := Int.emod_lt_of_pos count1 (by norm_num)
  have hbias0 : 0 ≤ bias := by rw [hbias]; omega
  have hbias1 : bias ≤ 30720 := by rw [hbias]; omega
  set M : Fin 16 → Int := mul_blend c.cdf s c.mix_rate bias with hM
  have hmeq : ∀ i, M i =
      (to_blend_lut s i * c.mix_rate + (c.cdf i * (32768 - c.mix_rate) + bias)) /
        32768 :=
    mul_blend_eq c.cdf s c.mix_rate bias hnn hble hm1 hm2 hbias0 hbias1
  have hEb : ∀ i : Fin 16,
      0 ≤ to_blend_lut s i * c.mix_rate + (c.cdf i * (32768 - c.mix_rate) + bias) ∧
        to_blend_lut s i * c.mix_rate + (c.cdf i * (32768 - c.mix_rate) + bias) ≤
          1073215488 := by
    intro i
    have h1 : 0 ≤ to_blend_lut s i * c.mix_rate :=
      mul_nonneg (to_blend_lut_nonneg s i) (by omega)
    have h1' : to_blend_lut s i * c.mix_rate ≤ 32751 * c.mix_rate :=
      mul_le_mul_of_nonneg_right (to_blend_lut_le s i) (by omega)
    have h3 : 0 ≤ c.cdf i * (32768 - c.mix_rate) := mul_nonneg (hnn i) (by omega)
    have h3' : c.cdf i * (32768 - c.mix_rate) ≤ 32751 * (32768 - c.mix_rate) :=
      mul_le_mul_of_nonneg_right (hble i) (by omega)
    have hsum : 32751 * c.mix_rate + 32751 * (32768 - c.mix_rate) =
        32751 * 32768 := by ring
    constructor <;> omega
  have hM0 : ∀ i, 0 ≤ M i := by
    intro i
    rw [hmeq i]
    have := hEb i
    omega
  have hMub : ∀ i, M i ≤ 32751 := by
    intro i
    rw [hmeq i]
    have := hEb i
    omega
  have hMstep : ∀ i : Fin 15, M i.castSucc ≤ M i.succ := by
    intro i
    rw [hmeq i.castSucc, hmeq i.succ]
    refine Int.ediv_le_ediv (by norm_num) ?_
    have ht := to_blend_lut_step s i
    have hc := hstep i
    have h1 : to_blend_lut s i.castSucc * c.mix_rate ≤
        to_blend_lut s i.succ * c.mix_rate :=
      mul_le_mul_of_nonneg_right ht (by omega)
    have h2 : c.cdf i.castSucc * (32768 - c.mix_rate) ≤
        c.cdf i.succ * (32768 - c.mix_rate) :=
      mul_le_mul_of_nonneg_right hc (by omega)
    omega
  have hMchain : ∀ i, M i ≤ M 15 :=
    fun i => (Fin.monotone_iff_le_succ.2 hMstep) (Fin.le_last i)
  have hblendEq : c.blend s sp =
      { cdf :=
          if M 15 < wrap16 ((32767 - 16) - M 15 / 2) then
            fun i => wrap16 (M i + M i / 2)
          else M,
        mix_rate := wrap32 (c.mix_rate - c.mix_rate / 128),
        count := count1 } := rfl
  have hm15a := hM0 15
  have hm15b := hMub 15
  have hwrapcond : wrap16 ((32767 - 16) - M 15 / 2) = 32751 - M 15 / 2 :=
    wrap16_eq_self (by omega) (by omega)
  have hmix : wrap32 (c.mix_rate - c.mix_rate / 128) =
      c.mix_rate - c.mix_rate / 128 :=
    wrap32_eq_self (by omega) (by omega)
  have hmix1 : 1 ≤ c.mix_rate - c.mix_rate / 128 := by omega
  have hmix2 : c.mix_rate - c.mix_rate / 128 ≤ 32768 := by omega
  rw [hblendEq]
  split_ifs with hcase
  · -- the early-iterations boost applies
    rw [hwrapcond] at hcase
    have hxeq : ∀ i : Fin 16, wrap16 (M i + M i / 2) = M i + M i / 2 := by
      intro i
      have h1 := hM0 i
      have h2 := hMchain i
      exact wrap16_eq_self (by omega) (by omega)
    refine ⟨?_, ?_, ?_, ?_, ?_⟩
    · intro i
      show (0 : Int) ≤ wrap16 _
      rw [hxeq i]
      have := hM0 i
      omega
    · intro i
      show wrap16 _ ≤ wrap16 _
      rw [hxeq i.castSucc, hxeq i.succ]
      have h1 := hMstep i
      have h2 := hM0 i.castSucc
      omega
    · show wrap16 _ ≤ 32751
      rw [hxeq 15]
      omega
    · show (1 : Int) ≤ wrap32 _
      rw [hmix]
      exact hmix1
    · show wrap32 _ ≤ 32768
      rw [hmix]
      exact hmix2
  · refine ⟨hM0, hMstep, hMub 15, ?_, ?_⟩
    · show (1 : Int) ≤ wrap32 _
      rw [hmix]
      exact hmix1
    · show wrap32 _ ≤ 32768
      rw [hmix]
      exact hmix2

/-- Every reachable `BlendCDF16` state satisfies the invariant. -/
theorem BlendCDF16.reachable_state_inv {c : BlendCDF16} (h : c.Reachable) :
    c.Inv := by
  induction h with
  | default => exact BlendCDF16.default_state_inv
  | blend _ s sp ih => exact BlendCDF16.blend_state_inv ih s sp

/-- Under the invariant, the latent-bias read of `BlendCDF16::cdf` below the
top symbol incurs no wrapping: it is the plain arithmetic
`cdf[s] + (CDF_MAX - cdf[15]) * (s + 1) / 16`. -/
theorem BlendCDF16.cdfAt_eq {c : BlendCDF16} (h : c.Inv) (s : Fin 16)
    (hs : (s : Nat) < 15) :
    c.cdfAt s = c.cdf s + (32767 - c.cdf 15) * (((s : Nat) : Int) + 1) / 16 := by
  obtain ⟨hnn, hstep, h15, -, -⟩ := h
  have hmono : Monotone c.cdf := Fin.monotone_iff_le_succ.2 hstep
  have hub : c.cdf s ≤ c.cdf 15 := hmono (Fin.le_last s)
  have hs0 := hnn s
  have h150 := hnn 15
  have hk1 : (1 : Int) ≤ ((s : Nat) : Int) + 1 := by omega
  have hk15 : (((s : Nat) : Int) + 1) ≤ 15 := by omega
  have hA0 : (32767 - c.cdf 15) * 1 ≤ (32767 - c.cdf 15) * (((s : Nat) : Int) + 1) :=
    mul_le_mul_of_nonneg_left hk1 (by omega)
  have hA1 : (32767 - c.cdf 15) * (((s : Nat) : Int) + 1) ≤
      (32767 - c.cdf 15) * 15 :=
    mul_le_mul_of_nonneg_left hk15 (by omega)
  unfold BlendCDF16.cdfAt
  rw [if_neg (by omega)]
  dsimp only
  rw [wrap16_eq_self (x := 32767 - c.cdf 15) (by omega) (by omega)]
  rw [wrap16_eq_self (x := (32767 - c.cdf 15) * (((s : Nat) : Int) + 1) / 16)
    (by omega) (by omega)]
  rw [wrap16_eq_self (by omega) (by omega)]

/-- Under the invariant, every `BlendCDF16` read below the top symbol is
strictly between `0` and `CDF_MAX`. -/
theorem BlendCDF16.cdfAt_bounds {c : BlendCDF16} (h : c.Inv) (s : Fin 16)
    (hs : (s : Nat) < 15) : 0 < c.cdfAt s ∧ c.cdfAt s < 32767 := by
  have heq := BlendCDF16.cdfAt_eq h s hs
  obtain ⟨hnn, hstep, h15, -, -⟩ := h
  have hmono : Monotone c.cdf := Fin.monotone_iff_le_succ.2 hstep
  have hub : c.cdf s ≤ c.cdf 15 := hmono (Fin.le_last s)
  have hs0 := hnn s
  have h150 := hnn 15
  have hk1 : (1 : Int) ≤ ((s : Nat) : Int) + 1 := by omega
  have hk15 : (((s : Nat) : Int) + 1) ≤ 15 := by omega
  have hA0 : (32767 - c.cdf 15) * 1 ≤ (32767 - c.cdf 15) * (((s : Nat) : Int) + 1) :=
    mul_le_mul_of_nonneg_left hk1 (by omega)
  have hA1 : (32767 - c.cdf 15) * (((s : Nat) : Int) + 1) ≤
      (32767 - c.cdf 15) * 15 :=
    mul_le_mul_of_nonneg_left hk15 (by omega)
  rw [heq]
  constructor <;> omega

/-- The top read of `BlendCDF16` is exactly `max() = CDF_MAX`. -/
theorem BlendCDF16.cdfAt_top (c : BlendCDF16) : c.cdfAt 15 = 32767 := rfl

/-! ## Claim C2: monotonicity and boundedness of the CDF16 reads -/

/-- **C2.** For every `BlendCDF16` or `FrequentistCDF16` instance reachable
from the default state by any finite sequence of blend calls, and every symbol
`s ∈ [0, 14]`: `cdf(s) ≤ cdf(s+1) ≤ max()`. -/
theorem claim_C2 :
    (∀ c : BlendCDF16, c.Reachable → ∀ s : Fin 15,
        c.cdfAt s.castSucc ≤ c.cdfAt s.succ ∧ c.cdfAt s.succ ≤ c.maxProb) ∧
      (∀ c : FrequentistCDF16, c.Reachable → ∀ s : Fin 15,
        c.cdfAt s.castSucc ≤ c.cdfAt s.succ ∧ c.cdfAt s.succ ≤ c.maxProb) := by
  constructor
  · intro c hr s
    have hinv := BlendCDF16.reachable_state_inv hr
    have hcs : (s.castSucc : Nat) = (s : Nat) := rfl
    have hss : (s.succ : Nat) = (s : Nat) + 1 := rfl
    have hcslt : (s.castSucc : Nat) < 15 := by rw [hcs]; exact s.isLt
    by_cases h14 : (s : Nat) = 14
    · have h1 : c.cdfAt s.succ = 32767 := by
        unfold BlendCDF16.cdfAt
        rw [if_pos (by rw [hss, h14])]
      refine ⟨?_, ?_⟩
      · rw [h1]
        exact le_of_lt (BlendCDF16.cdfAt_bounds hinv s.castSucc hcslt).2
      · rw [h1]
        exact le_refl _
    · have hsslt : (s.succ : Nat) < 15 := by rw [hss]; omega
      have e1 := BlendCDF16.cdfAt_eq hinv s.castSucc hcslt
      have e2 := BlendCDF16.cdfAt_eq hinv s.succ hsslt
      obtain ⟨hnn, hstep, h15, hmr1, hmr2⟩ := hinv
      have hcdf := hstep s
      have hBnn : (0 : Int) ≤ 32767 - c.cdf 15 := by
        have := hnn 15
        omega
      have hBmono : (32767 - c.cdf 15) * (((s.castSucc : Nat) : Int) + 1) ≤
          (32767 - c.cdf 15) * (((s.succ : Nat) : Int) + 1) := by
        refine mul_le_mul_of_nonneg_left ?_ hBnn
        rw [hcs, hss]
        push_cast
        omega
      have hdiv := Int.ediv_le_ediv (c := 16) (by norm_num) hBmono
      refine ⟨?_, ?_⟩
      · rw [e1, e2]
        omega
      · exact le_of_lt (BlendCDF16.cdfAt_bounds
          ⟨hnn, hstep, h15, hmr1, hmr2⟩ s.succ hsslt).2
  · intro c hr s
    obtain ⟨h0, hlt, h15⟩ := FrequentistCDF16.reachable_satisfies_inv hr
    have hmono : Monotone c.cdf := (Fin.strictMono_iff_lt_succ.2 hlt).monotone
    exact ⟨le_of_lt (hlt s), hmono (Fin.le_last s.succ)⟩

/-- Witness for C2: the default states, at symbol 3. -/
theorem claim_C2_witness :
    (BlendCDF16.default.cdfAt ((3 : Fin 15).castSucc) ≤
        BlendCDF16.default.cdfAt ((3 : Fin 15).succ) ∧
      BlendCDF16.default.cdfAt ((3 : Fin 15).succ) ≤
        BlendCDF16.default.maxProb) ∧
      (FrequentistCDF16.default.cdfAt ((3 : Fin 15).castSucc) ≤
          FrequentistCDF16.default.cdfAt ((3 : Fin 15).succ) ∧
        FrequentistCDF16.default.cdfAt ((3 : Fin 15).succ) ≤
          FrequentistCDF16.default.maxProb) :=
  ⟨claim_C2.1 BlendCDF16.default BlendCDF16.Reachable.default 3,
    claim_C2.2 FrequentistCDF16.default FrequentistCDF16.Reachable.default 3⟩

/-! ## Claim C3: positivity of the PDF

The claim quantifies over **every** CDF variant, including `CDF2` and
`ExternalProbCDF16`.  It fails for `CDF2`: at the default state (the empty
blend sequence) `pdf(1) = cdf(1) - cdf(0) = (256 - 128) - 128 = 0`, and after
further blends of symbol `false` it even becomes negative.  (It fails for
`ExternalProbCDF16.default` as well, whose table is all zeros.)  The positive
part that does hold is the amended claim below for the two adaptive CDF16s. -/

/-- **C3, counterexample.** The default `CDF2` state is reachable (empty blend
sequence), yet `pdf(1) = 0` is not positive. -/
theorem claim_C3_counterexample :
    CDF2.Reachable CDF2.default ∧ CDF2.default.pdf 1 = 0 ∧
      ¬ 0 < CDF2.default.pdf 1 :=
  ⟨CDF2.Reachable.default, by decide, by decide⟩

/-- Positivity of the wrapped difference of two adjacent `BlendCDF16` reads:
the bias term contributes at least `bias/16 >= 1` per step. -/
theorem BlendCDF16.pdf_pos_read {c : BlendCDF16} (hinv : c.Inv) (s p : Fin 16)
    (hps : (p : Nat) + 1 = (s : Nat)) : 0 < wrap16 (c.cdfAt s - c.cdfAt p) := by
  have hplt : (p : Nat) < 15 := by
    have := s.isLt
    omega
  have hbp := BlendCDF16.cdfAt_bounds hinv p hplt
  by_cases h15 : (s : Nat) = 15
  · have htop : c.cdfAt s = 32767 := by
      unfold BlendCDF16.cdfAt
      rw [if_pos h15]
    rw [htop, wrap16_eq_self (by omega) (by omega)]
    omega
  · have hslt : (s : Nat) < 15 := by
      have := s.isLt
      omega
    have hbs := BlendCDF16.cdfAt_bounds hinv s hslt
    have e1 := BlendCDF16.cdfAt_eq hinv s hslt
    have e2 := BlendCDF16.cdfAt_eq hinv p hplt
    obtain ⟨hnn, hstep, hc15, -, -⟩ := hinv
    have hmono : Monotone c.cdf := Fin.monotone_iff_le_succ.2 hstep
    have hcdfmono : c.cdf p ≤ c.cdf s := by
      refine hmono ?_
      simp only [Fin.le_def]
      omega
    have hBnn : (0 : Int) ≤ 32767 - c.cdf 15 := by
      have := hnn 15
      omega
    have hB16 : (16 : Int) ≤ 32767 - c.cdf 15 := by omega
    have hYnn : (0 : Int) ≤ (32767 - c.cdf 15) * (((p : Nat) : Int) + 1) :=
      mul_nonneg hBnn (by positivity)
    have hXeq : (32767 - c.cdf 15) * (((s : Nat) : Int) + 1) =
        (32767 - c.cdf 15) * (((p : Nat) : Int) + 1) + (32767 - c.cdf 15) := by
      have hsp : ((s : Nat) : Int) = ((p : Nat) : Int) + 1 := by omega
      rw [hsp]
      ring
    rw [e1] at hbs
    rw [e2] at hbp
    rw [e1, e2, wrap16_eq_self (by omega) (by omega)]
    omega

/-- Positivity of the wrapped difference of two adjacent `FrequentistCDF16`
entries, from strict monotonicity of the table. -/
theorem FrequentistCDF16.pdf_pos_step {c : FrequentistCDF16} (hinv : c.Inv)
    (s p : Fin 16) (hps : (p : Nat) + 1 = (s : Nat)) :
    0 < wrap16 (c.cdfAt s - c.cdfAt p) := by
  obtain ⟨h0, hlt, h15⟩ := hinv
  have hmono : Monotone c.cdf := (Fin.strictMono_iff_lt_succ.2 hlt).monotone
  have hlb : ∀ i, 0 < c.cdf i :=
    fun i => lt_of_lt_of_le h0 (hmono (Fin.zero_le i))
  have hub : ∀ i, c.cdf i ≤ c.cdf 15 := fun i => hmono (Fin.le_last i)
  have hplt : (p : Nat) < 15 := by
    have := s.isLt
    omega
  have hi : (⟨(p : Nat), hplt⟩ : Fin 15).succ = s := by
    apply Fin.ext
    simp only [Fin.val_succ]
    omega
  have hcast : (⟨(p : Nat), hplt⟩ : Fin 15).castSucc = p := by
    apply Fin.ext
    rfl
  have hstrict := hlt ⟨(p : Nat), hplt⟩
  rw [hi, hcast] at hstrict
  have h1 := hlb p
  have h2 := hub s
  unfold FrequentistCDF16.cdfAt
  rw [wrap16_eq_self (by omega) (by omega)]
  omega

/-- **C3, amended.** For the two adaptive 16-symbol variants — `BlendCDF16`
and `FrequentistCDF16` — every in-range symbol of every instance reached from
the default state by any finite sequence of blend calls has `pdf(s) > 0`. -/
theorem claim_C3 :
    (∀ c : BlendCDF16, c.Reachable → ∀ s : Fin 16, 0 < c.pdf s) ∧
      (∀ c : FrequentistCDF16, c.Reachable → ∀ s : Fin 16, 0 < c.pdf s) := by
  constructor
  · intro c hr s
    have hinv := BlendCDF16.reachable_state_inv hr
    by_cases h0 : (s : Nat) = 0
    · unfold BlendCDF16.pdf
      rw [if_pos h0]
      exact (BlendCDF16.cdfAt_bounds hinv s (by omega)).1
    · unfold BlendCDF16.pdf
      rw [if_neg h0]
      exact BlendCDF16.pdf_pos_read hinv s _ (by
        show (s : Nat) - 1 + 1 = (s : Nat)
        omega)
  · intro c hr s
    have hinv := FrequentistCDF16.reachable_satisfies_inv hr
    by_cases h0 : (s : Nat) = 0
    · unfold FrequentistCDF16.pdf
      rw [if_pos h0]
      obtain ⟨hz, hlt, -⟩ := hinv
      have hmono : Monotone c.cdf := (Fin.strictMono_iff_lt_succ.2 hlt).monotone
      exact lt_of_lt_of_le hz (hmono (Fin.zero_le s))
    · unfold FrequentistCDF16.pdf
      rw [if_neg h0]
      exact FrequentistCDF16.pdf_pos_step hinv s _ (by
        show (s : Nat) - 1 + 1 = (s : Nat)
        omega)

/-- Witness for the amended C3: the default states, at symbols 0 and 9. -/
theorem claim_C3_witness :
    0 < BlendCDF16.default.pdf 9 ∧ 0 < FrequentistCDF16.default.pdf 0 :=
  ⟨claim_C3.1 BlendCDF16.default BlendCDF16.Reachable.default 9,
    claim_C3.2 FrequentistCDF16.default FrequentistCDF16.Reachable.default 0⟩

/-! ## The command state machine (`src/codec/mod.rs`) -/

/-- The tri-valued-plus-failure result of every codec entry point
(`DivansResult` of the interface module). -/
inductive DivansResult
  | Success
  | NeedsMoreInput
  | NeedsMoreOutput
  | Failure
deriving DecidableEq

/-- Modelled from the spec: the incremental CRC32C digest over the byte
stream.  The digest implementation lives in `src/codec/crc32.rs`, which is
referenced (`mod crc32;`) but not among the provided sources; this is the
standard bitwise Castagnoli CRC32C (reflected polynomial `0x82F63B78`) that
the spec names, processing one bit per step and one byte per list element. -/
def crc32cStep (s : Nat) : Nat :=
  if s % 2 = 1 then (s / 2) ^^^ 0x82F63B78 else s / 2

/-- Modelled from the spec: fold one byte into the CRC32C state. -/
def crc32cByte (s b : Nat) : Nat := crc32cStep^[8] (s ^^^ b % 256)

/-- Modelled from the spec: `crc32c_update` over a byte slice. -/
def crc32cUpdate (s : Nat) (bs : List Nat) : Nat := bs.foldl crc32cByte s

/-- Modelled from the spec: `crc32c_init`. -/
def crc32cInit : Nat := 0xffffffff

/-- The 8-byte trailer `[crc0, crc1, crc2, crc3, 'a', 'n', 's', '~']` built in
`WriteChecksum` (`src/codec/mod.rs` lines 556-563): little-endian CRC32C
followed by the ASCII magic. -/
def checksumArr (crc : Nat) : List Nat :=
  [crc % 256, crc / 256 % 256, crc / 65536 % 256, crc / 16777216 % 256,
    97, 110, 115, 126]

/-- The decoder state carried by `WriteChecksum(count)` verification: the
trailer position already verified, the frozen checksum snapshot, the rolling
CRC, and the `skip_checksum` flag. -/
structure ChecksumState where
  count : Nat
  frozen : Option Nat
  crc : Nat
  skip : Bool

/-- The mismatch scan of the `WriteChecksum` decode branch
(`src/codec/mod.rs` lines 565-572): position `pos` offends when expected and
actual bytes differ and either `pos ≥ 4` (the `ans~` magic) or
`skip_checksum` is unset. -/
def hasOffender (skip : Bool) : Nat → List Nat → List Nat → Bool
  | _, [], _ => false
  | _, _ :: _, [] => false
  | pos, chk :: chks, fil :: fils =>
    ((chk != fil) && (decide (4 ≤ pos) || !skip)) ||
      hasOffender skip (pos + 1) chks fils

/-- One decoder call landing in `WriteChecksum(count)`
(`src/codec/mod.rs` lines 533-581), returning the call result, the updated
state, and the updated input offset.  With `skip_checksum` the frozen checksum
is forced to 0; otherwise, on first entry, the CRC is updated over the input
consumed so far and frozen.  Up to `8 - count` available bytes are compared
against the trailer; an offending mismatch fails the call before the offset
advances.  A `Success` result corresponds to the machine reaching
`DivansSuccess` (the enclosing loop's next iteration returns `Success`);
otherwise the machine stays in `WriteChecksum` and reports
`NeedsMoreInput`. -/
def writeChecksumCall (st : ChecksumState) (input : List Nat)
    (inputOffset : Nat) : DivansResult × ChecksumState × Nat :=
  let st1 := if st.skip then { st with frozen := some 0 } else st
  let bytesNeeded := 8 - st1.count
  let toCheck := min (input.length - inputOffset) bytesNeeded
  if toCheck = 0 then (.NeedsMoreInput, st1, inputOffset)
  else
    let st2 := match st1.frozen with
      | some _ => st1
      | none =>
        let c := crc32cUpdate st1.crc (input.take inputOffset)
        { st1 with crc := c, frozen := some c }
    let crc := st2.frozen.getD 0
    let expected := ((checksumArr crc).drop st2.count).take toCheck
    let actual := (input.drop inputOffset).take toCheck
    if hasOffender st2.skip st2.count expected actual then
      (.Failure, st2, inputOffset)
    else if bytesNeeded ≠ toCheck then
      (.NeedsMoreInput, { st2 with count := st2.count + toCheck },
        inputOffset + toCheck)
    else
      (.Success, st2, inputOffset + toCheck)

/-- An offending mismatch anywhere in the zipped window makes the scan
report it. -/
theorem hasOffender_of_mismatch (skip : Bool) :
    ∀ (chks fils : List Nat) (pos i : Nat), i < chks.length →
      i < fils.length → chks.getD i 0 ≠ fils.getD i 0 →
      (4 ≤ pos + i ∨ skip = false) → hasOffender skip pos chks fils = true := by
  intro chks
  induction chks with
  | nil =>
    intro fils pos i h1
    simp at h1
  | cons c cs ih =>
    intro fils pos i h1 h2 h3 h4
    cases fils with
    | nil => simp at h2
    | cons f fs =>
      unfold hasOffender
      cases i with
      | zero =>
        simp only [List.getD_cons_zero] at h3
        have hc : (c != f) = true := by
          simp [h3]
        have hp : (decide (4 ≤ pos) || !skip) = true := by
          rcases h4 with h4 | h4
          · simp
            omega
          · simp [h4]
        rw [hc, hp]
        simp
      | succ n =>
        simp only [List.getD_cons_succ] at h3
        have := ih fs (pos + 1) n (by simpa using h1) (by simpa using h2) h3
          (by
            rcases h4 with h4 | h4
            · left
              omega
            · right
              exact h4)
        rw [this]
        simp

/-- A fresh `WriteChecksum(0)` call with a full 8-byte window reduces to the
mismatch scan: `Failure` exactly when some position offends, `Success`
otherwise.  With `skip_checksum` the expected CRC bytes come from the forced
snapshot 0; otherwise from the CRC of the (empty) input consumed so far. -/
theorem writeChecksumCall_scan (crcv : Nat) (skip : Bool) (input : List Nat)
    (hlen : input.length = 8) :
    (writeChecksumCall ⟨0, none, crcv, skip⟩ input 0).1 =
      if hasOffender skip 0 (checksumArr (if skip then 0 else crcv)) input then
        DivansResult.Failure
      else DivansResult.Success := by
  have htake : input.take 8 = input := List.take_of_length_le (by omega)
  cases skip <;>
  · simp [writeChecksumCall, hlen, htake, crc32cUpdate, checksumArr]
    split <;> rfl

/-- The trailer bytes past position 4 are the ASCII magic `a n s ~`,
independently of the CRC value. -/
theorem checksumArr_magic (x : Nat) (p : Nat) (h4 : 4 ≤ p) (h8 : p < 8) :
    (checksumArr x).getD p 0 = [97, 110, 115, 126].getD (p - 4) 0 := by
  interval_cases p <;> simp [checksumArr]

/-- **C6.** During decode-side trailer verification in `WriteChecksum`:
(a) a byte mismatch at trailer positions 4..7 (the `a n s ~` magic) returns
`Failure` regardless of `skip_checksum`; (b) a mismatch at positions 0..3
(the little-endian CRC32C bytes) returns `Failure` when `skip_checksum` is
unset; (c) with `skip_checksum` set and the magic bytes correct, verification
reaches `DivansSuccess` whatever the four CRC bytes hold. -/
theorem claim_C6 :
    (∀ (crcv : Nat) (skip : Bool) (input : List Nat) (p : Nat),
        input.length = 8 → 4 ≤ p → p < 8 →
        input.getD p 0 ≠ [97, 110, 115, 126].getD (p - 4) 0 →
        (writeChecksumCall ⟨0, none, crcv, skip⟩ input 0).1 =
          DivansResult.Failure) ∧
      (∀ (crcv : Nat) (input : List Nat) (p : Nat),
        input.length = 8 → p < 4 →
        input.getD p 0 ≠ (checksumArr crcv).getD p 0 →
        (writeChecksumCall ⟨0, none, crcv, false⟩ input 0).1 =
          DivansResult.Failure) ∧
      (∀ crcv b0 b1 b2 b3 : Nat,
        (writeChecksumCall ⟨0, none, crcv, true⟩
            [b0, b1, b2, b3, 97, 110, 115, 126] 0).1 =
          DivansResult.Success) := by
  refine ⟨?_, ?_, ?_⟩
  · intro crcv skip input p hlen h4p hp8 hmis
    rw [writeChecksumCall_scan crcv skip input hlen]
    rw [if_pos ?_]
    refine hasOffender_of_mismatch skip _ input 0 p ?_ ?_ ?_ (Or.inl (by omega))
    · simp [checksumArr]
      omega
    · omega
    · rw [checksumArr_magic _ p h4p hp8]
      exact Ne.symm hmis
  · intro crcv input p hlen hp4 hmis
    rw [writeChecksumCall_scan crcv false input hlen]
    rw [if_pos ?_]
    refine hasOffender_of_mismatch false _ input 0 p ?_ ?_ ?_ (Or.inr rfl)
    · simp [checksumArr]
      omega
    · omega
    · exact Ne.symm hmis
  · intro crcv b0 b1 b2 b3
    rw [writeChecksumCall_scan crcv true _ (by simp)]
    rw [if_neg ?_]
    simp [hasOffender, checksumArr]

/-- Witness for C6: concrete 8-byte trailers exercising all three parts. -/
theorem claim_C6_witness :
    (writeChecksumCall ⟨0, none, 7, false⟩ [0, 0, 0, 0, 0, 110, 115, 126] 0).1 =
        DivansResult.Failure ∧
      (writeChecksumCall ⟨0, none, 7, false⟩ [1, 0, 0, 0, 97, 110, 115, 126] 0).1 =
        DivansResult.Failure ∧
      (writeChecksumCall ⟨0, none, 7, true⟩ [9, 9, 9, 9, 97, 110, 115, 126] 0).1 =
        DivansResult.Success :=
  ⟨claim_C6.1 7 false _ 4 (by decide) (by decide) (by decide) (by decide),
    claim_C6.2.1 7 _ 0 (by decide) (by decide) (by decide),
    claim_C6.2.2 7 9 9 9 9⟩

/-! ## Claim C7: the shutdown states reject further commands -/

/-- The top-level `EncodeOrDecodeState` enum (`src/codec/mod.rs` lines
97-113). -/
inductive EncodeOrDecodeState
  | Begin
  | Literal
  | Dict
  | Copy
  | BlockSwitchLiteral
  | BlockSwitchCommand
  | BlockSwitchDistance
  | PredictionMode
  | PopulateRingBuffer
  | DivansSuccess
  | EncodedShutdownNode
  | ShutdownCoder
  | CoderBufferDrain
  | WriteChecksum (count : Nat)
deriving DecidableEq

/-- `OneCommandReturn` (`src/codec/mod.rs` lines 173-176): `Advance` reports a
fully processed command; `BufferExhausted` propagates a `DivansResult` to the
caller. -/
inductive OneCommandReturn
  | Advance
  | BufferExhausted (res : DivansResult)
deriving DecidableEq

/-- The three flush-in-progress states. -/
def EncodeOrDecodeState.isShutdown : EncodeOrDecodeState → Bool
  | .EncodedShutdownNode => true
  | .ShutdownCoder => true
  | .CoderBufferDrain => true
  | _ => false

/-- The state dispatch of `encode_or_decode_one_command`
(`src/codec/mod.rs` lines 525-532): the first match arm handles
`EncodedShutdownNode | ShutdownCoder | CoderBufferDrain` by returning
`BufferExhausted(Fail())` — "not allowed to encode additional commands after
flush is invoked" — without touching the state; every other arm (whose
behaviour involves the arithmetic coder, the per-command sub-state machines
and the recoder) is abstracted as the oracle `rest`. -/
def encodeOrDecodeOneCommand
    (rest : EncodeOrDecodeState → OneCommandReturn × EncodeOrDecodeState)
    (s : EncodeOrDecodeState) : OneCommandReturn × EncodeOrDecodeState :=
  match s with
  | .EncodedShutdownNode | .ShutdownCoder | .CoderBufferDrain =>
    (.BufferExhausted .Failure, s)
  | _ => rest s

/-- The codec state after `n` further `encode_or_decode_one_command` calls. -/
def callSequenceState
    (rest : EncodeOrDecodeState → OneCommandReturn × EncodeOrDecodeState)
    (s : EncodeOrDecodeState) : Nat → EncodeOrDecodeState
  | 0 => s
  | n + 1 => (encodeOrDecodeOneCommand rest (callSequenceState rest s n)).2

theorem encodeOrDecodeOneCommand_shutdown
    (rest : EncodeOrDecodeState → OneCommandReturn × EncodeOrDecodeState)
    {s : EncodeOrDecodeState} (h : s.isShutdown = true) :
    encodeOrDecodeOneCommand rest s = (.BufferExhausted .Failure, s) := by
  cases s <;> first
    | rfl
    | simp [EncodeOrDecodeState.isShutdown] at h

/-- **C7.** Once flush has begun — the top-level state is
`EncodedShutdownNode`, `ShutdownCoder` or `CoderBufferDrain` — every
subsequent call (for any behaviour of the non-shutdown arms) returns
`BufferExhausted(Failure)` and leaves the state unchanged, so no command is
ever processed again (in particular `Advance` is never returned, and
`encode_or_decode`, which propagates the first `BufferExhausted` result of
`encode_or_decode_one_command`, returns `Failure`). -/
theorem claim_C7
    (rest : EncodeOrDecodeState → OneCommandReturn × EncodeOrDecodeState)
    (s : EncodeOrDecodeState) (h : s.isShutdown = true) (n : Nat) :
    (encodeOrDecodeOneCommand rest (callSequenceState rest s n)).1 =
        OneCommandReturn.BufferExhausted DivansResult.Failure ∧
      callSequenceState rest s n = s := by
  induction n with
  | zero =>
    refine ⟨?_, rfl⟩
    show (encodeOrDecodeOneCommand rest s).1 = _
    rw [encodeOrDecodeOneCommand_shutdown rest h]
  | succ n ih =>
    have hstate : callSequenceState rest s (n + 1) = s := by
      show (encodeOrDecodeOneCommand rest (callSequenceState rest s n)).2 = s
      rw [ih.2, encodeOrDecodeOneCommand_shutdown rest h]
    exact ⟨by rw [hstate, encodeOrDecodeOneCommand_shutdown rest h], hstate⟩

/-- Witness for C7: a `ShutdownCoder` state stays failed after two further
calls, even against an oracle that would happily advance. -/
theorem claim_C7_witness :
    (encodeOrDecodeOneCommand (fun _ => (.Advance, .Begin))
          (callSequenceState (fun _ => (.Advance, .Begin))
            EncodeOrDecodeState.ShutdownCoder 2)).1 =
        OneCommandReturn.BufferExhausted DivansResult.Failure ∧
      callSequenceState (fun _ => (.Advance, .Begin))
          EncodeOrDecodeState.ShutdownCoder 2 =
        EncodeOrDecodeState.ShutdownCoder :=
  claim_C7 (fun _ => (.Advance, .Begin)) EncodeOrDecodeState.ShutdownCoder
    (by decide) 2

/-! ## Claim C8: the threaded decoder's CRC (`src/codec/decoder.rs`)

`decode_process_input` hashes the **compressed input** it accepts into the
demuxer — before any worker interaction and without any output bytes in
sight — so the spec's statement that the main thread CRCs uncompressed output
only, and only after the worker returns a command, does not match the code.
(The single-threaded decoder does the same: `encode_or_decode` CRCs its
consumed input when `IS_DECODING_FILE`, and the encoder CRCs its produced
compressed output, so the trailer CRC is over the compressed stream on both
sides.) -/

/-- The main-thread state of `DivansDecoderCodec` touched by
`decode_process_input`: the demuxer and the worker are external collaborators,
abstracted as type parameters, alongside the rolling CRC, the
`skip_checksum` flag, and `outstanding_buffer_count`. -/
structure ThreadedMainState (δ ω : Type) where
  demuxer : δ
  worker : ω
  crc : Nat
  skip : Bool
  outstanding : Nat

/-- `DivansDecoderCodec::decode_process_input` (`src/codec/decoder.rs` lines
87-107): feed the pending input to the demuxer (`write_linear`, abstracted as
`writeLinear`, returning the new demuxer and the count of bytes consumed);
update the CRC over exactly the consumed prefix unless `skip_checksum`;
advance the input offset; then offer the demuxer's command stream to the
worker (`push`, abstracted, `true` meaning accepted, which increments
`outstanding_buffer_count`).  The call always returns `Success`. -/
def decodeProcessInput {δ ω : Type}
    (writeLinear : δ → List Nat → δ × Nat)
    (push : ω → δ → ω × δ × Bool)
    (st : ThreadedMainState δ ω) (input : List Nat) (inputOffset : Nat) :
    ThreadedMainState δ ω × Nat × DivansResult :=
  let adjusted := input.drop inputOffset
  let wl := writeLinear st.demuxer adjusted
  let crc1 :=
    if st.skip then st.crc else crc32cUpdate st.crc (adjusted.take wl.2)
  let pr := push st.worker wl.1
  let outstanding1 := if pr.2.2 then st.outstanding + 1 else st.outstanding
  (⟨pr.2.1, pr.1, crc1, st.skip, outstanding1⟩, inputOffset + wl.2, .Success)

/-- **C8, counterexample.** A single `decode_process_input` call on one byte
of compressed input (with `skip_checksum` unset, a demuxer that accepts
everything, and a worker that accepts nothing, so no command is ever
returned and no output byte exists) already changes the main thread's CRC —
by hashing exactly that compressed input byte. -/
theorem claim_C8_counterexample :
    (decodeProcessInput (fun (d : Unit) bs => (d, bs.length))
          (fun (w : Unit) (d : Unit) => (w, d, false))
          ⟨(), (), crc32cInit, false, 0⟩ [97] 0).1.crc =
        crc32cUpdate crc32cInit [97] ∧
      crc32cUpdate crc32cInit [97] ≠ crc32cInit :=
  ⟨rfl, by decide⟩

/-- **C8, amended.** In the threaded decoder, whenever `skip_checksum` is
unset, `decode_process_input` returns `Success` after updating the main
thread's CRC32C over precisely the prefix of the remaining compressed input
that the demuxer consumed — before any worker interaction — and advancing the
input offset by that same count; the uncompressed output plays no part in
this CRC. -/
theorem claim_C8 {δ ω : Type} (writeLinear : δ → List Nat → δ × Nat)
    (push : ω → δ → ω × δ × Bool) (st : ThreadedMainState δ ω)
    (input : List Nat) (inputOffset : Nat) (hskip : st.skip = false) :
    (decodeProcessInput writeLinear push st input inputOffset).2.2 =
        DivansResult.Success ∧
      (decodeProcessInput writeLinear push st input inputOffset).1.crc =
        crc32cUpdate st.crc ((input.drop inputOffset).take
          (writeLinear st.demuxer (input.drop inputOffset)).2) ∧
      (decodeProcessInput writeLinear push st input inputOffset).2.1 =
        inputOffset + (writeLinear st.demuxer (input.drop inputOffset)).2 := by
  refine ⟨rfl, ?_, rfl⟩
  show (if st.skip then st.crc else _) = _
  rw [hskip]
  simp

/-- Witness for the amended C8: the concrete one-byte run. -/
theorem claim_C8_witness :
    (decodeProcessInput (fun (d : Unit) bs => (d, bs.length))
          (fun (w : Unit) (d : Unit) => (w, d, true))
          ⟨(), (), crc32cInit, false, 0⟩ [5] 0).2.2 =
        DivansResult.Success ∧
      (decodeProcessInput (fun (d : Unit) bs => (d, bs.length))
            (fun (w : Unit) (d : Unit) => (w, d, true))
            ⟨(), (), crc32cInit, false, 0⟩ [5] 0).1.crc =
        crc32cUpdate crc32cInit (([5].drop 0).take
          ((fun (d : Unit) bs => (d, bs.length)) () ([5].drop 0)).2) ∧
      (decodeProcessInput (fun (d : Unit) bs => (d, bs.length))
            (fun (w : Unit) (d : Unit) => (w, d, true))
            ⟨(), (), crc32cInit, false, 0⟩ [5] 0).2.1 =
        0 + ((fun (d : Unit) bs => (d, bs.length)) () ([5].drop 0)).2 :=
  claim_C8 (fun (d : Unit) bs => (d, bs.length))
    (fun (w : Unit) (d : Unit) => (w, d, true))
    ⟨(), (), crc32cInit, false, 0⟩ [5] 0 rfl

/-! ## Claim C1: round-trip of the codec (spec-modelled)

The round trip runs through the arithmetic coder, the per-command
sub-state-machines and the recoder, all of which the spec places out of scope
("external collaborators, only their interfaces are specified"; the nibble
decomposition of command payloads and the coder's bit packing are explicit
non-goals) and none of which is among the provided sources.  Following the
spec, they are modelled as an idealized nibble-exact coder: the compressed
stream is the sequence of nibbles fed to `get_or_put_nibble`, a byte stream
`B` is carried by a single `Literal` command (raw-bytes-to-command conversion
is likewise out of scope), and a literal's payload is serialized as a 7-nibble
little-endian length followed by two nibbles per byte.  The command framing is
taken from the source: the tag nibble of `command_type_to_nibble`, the
end-of-stream nibble `0xF`, and the 8-byte `[crc0..crc3, 'a','n','s','~']`
trailer over the compressed stream (`checksumArr`). -/

/-- The seven-kind command alphabet (`Command` of the interface module); only
the literal payload matters to the round trip, the other payloads are
elided. -/
inductive ModelCommand
  | Copy (distance numBytes : Nat)
  | Dict
  | Literal (data : List Nat)
  | BlockSwitchLiteral
  | BlockSwitchCommand
  | BlockSwitchDistance
  | PredictionMode

/-- `command_type_to_nibble` (`src/codec/mod.rs` lines 126-141). -/
def commandTypeToNibble (cmd : ModelCommand) (isEnd : Bool) : Nat :=
  if isEnd then 15
  else
    match cmd with
    | .Copy _ _ => 1
    | .Dict => 2
    | .Literal _ => 3
    | .BlockSwitchLiteral => 4
    | .BlockSwitchCommand => 5
    | .BlockSwitchDistance => 6
    | .PredictionMode => 7

/-- Modelled from the spec: `n` base-16 digits of `v`, least significant
first (the literal length field of the idealized serializer). -/
def natToNibblesLE : Nat → Nat → List Nat
  | 0, _ => []
  | n + 1, v => v % 16 :: natToNibblesLE n (v / 16)

/-- Modelled from the spec: read back `n` base-16 digits, returning the value
and the unread remainder. -/
def parseNatLE : Nat → List Nat → Option (Nat × List Nat)
  | 0, s => some (0, s)
  | _ + 1, [] => none
  | n + 1, d :: s => (parseNatLE n s).map fun vr => (d + 16 * vr.1, vr.2)

/-- Modelled from the spec: high then low nibble of every byte. -/
def bytesToNibbles : List Nat → List Nat
  | [] => []
  | b :: t => b / 16 :: b % 16 :: bytesToNibbles t

/-- Modelled from the spec: read back `n` bytes of two nibbles each. -/
def parseBytes : Nat → List Nat → Option (List Nat × List Nat)
  | 0, s => some ([], s)
  | n + 1, hi :: lo :: s =>
    (parseBytes n s).map fun br => ((hi * 16 + lo) :: br.1, br.2)
  | _ + 1, _ => none

/-- The 8-byte trailer of `checksumArr`, carried over the idealized nibble
stream as 16 nibbles. -/
def trailerNibbles (crc : Nat) : List Nat :=
  bytesToNibbles (checksumArr crc)

/-- Modelled from the spec: encode the byte stream `B` — a `Literal` command
tag, the serialized literal, the end-of-stream nibble `0xF`, then the trailer
over the CRC32C of the compressed stream so far. -/
def encodeModel (B : List Nat) : List Nat :=
  let head := commandTypeToNibble (ModelCommand.Literal B) false ::
    (natToNibblesLE 7 B.length ++ bytesToNibbles B ++
      [commandTypeToNibble (ModelCommand.Literal B) true])
  head ++ trailerNibbles (crc32cUpdate crc32cInit head)

/-- Modelled from the spec: decode a literal-command stream — dispatch on the
tag nibble, deserialize the literal, expect the end-of-stream nibble, then
verify the trailer against the CRC32C of the compressed prefix consumed
before it. -/
def decodeModel (s : List Nat) : Option (List Nat) :=
  match s with
  | [] => none
  | tag :: r1 =>
    if tag = 3 then
      (parseNatLE 7 r1).bind fun lr =>
        (parseBytes lr.1 lr.2).bind fun br =>
          match br.2 with
          | [] => none
          | e :: r4 =>
            if e = 15 then
              if r4 = trailerNibbles (crc32cUpdate crc32cInit
                  (s.take (s.length - 16))) then
                some br.1
              else none
            else none
    else none

theorem natToNibblesLE_length : ∀ (n v : Nat), (natToNibblesLE n v).length = n
  | 0, _ => rfl
  | n + 1, v => by
    simp [natToNibblesLE, natToNibblesLE_length n]

theorem bytesToNibbles_length : ∀ B : List Nat,
    (bytesToNibbles B).length = 2 * B.length
  | [] => rfl
  | b :: t => by
    simp [bytesToNibbles, bytesToNibbles_length t]
    omega

theorem trailerNibbles_length (crc : Nat) : (trailerNibbles crc).length = 16 :=
  rfl

theorem parseNatLE_encode : ∀ (n v : Nat) (r : List Nat), v < 16 ^ n →
    parseNatLE n (natToNibblesLE n v ++ r) = some (v, r) := by
  intro n
  induction n with
  | zero =>
    intro v r hv
    have : v = 0 := by
      simpa using hv
    subst this
    rfl
  | succ n ih =>
    intro v r hv
    have hdiv : v / 16 < 16 ^ n := by
      rw [pow_succ] at hv
      omega
    show parseNatLE (n + 1) ((v % 16 :: natToNibblesLE n (v / 16)) ++ r) = _
    rw [List.cons_append]
    show (parseNatLE n (natToNibblesLE n (v / 16) ++ r)).map _ = _
    rw [ih (v / 16) r hdiv]
    show some (v % 16 + 16 * (v / 16), r) = some (v, r)
    have hvm : v % 16 + 16 * (v / 16) = v := by omega
    rw [hvm]

theorem parseBytes_encode : ∀ (B : List Nat) (r : List Nat),
    parseBytes B.length (bytesToNibbles B ++ r) = some (B, r) := by
  intro B
  induction B with
  | nil =>
    intro r
    rfl
  | cons b t ih =>
    intro r
    show parseBytes (t.length + 1) ((b / 16 :: b % 16 :: bytesToNibbles t) ++ r) =
      _
    rw [List.cons_append, List.cons_append]
    show (parseBytes t.length (bytesToNibbles t ++ r)).map _ = _
    rw [ih r]
    show some ((b / 16 * 16 + b % 16) :: t, r) = some (b :: t, r)
    have hb : b / 16 * 16 + b % 16 = b := by omega
    rw [hb]

/-- **C1 (spec-modelled).** Decoding the encoding of any valid byte stream
`B` of length at most `2^24` with the identically configured model decoder
yields exactly `B`. -/
theorem claim_C1 (B : List Nat) (_hvalid : ∀ b ∈ B, b < 256)
    (hlen : B.length ≤ 2 ^ 24) : decodeModel (encodeModel B) = some B := by
  have hlen7 : B.length < 16 ^ 7 := by
    have h1 : (2 : Nat) ^ 24 < 16 ^ 7 := by norm_num
    omega
  have henc : encodeModel B =
      (commandTypeToNibble (ModelCommand.Literal B) false ::
          (natToNibblesLE 7 B.length ++ bytesToNibbles B ++
            [commandTypeToNibble (ModelCommand.Literal B) true])) ++
        trailerNibbles (crc32cUpdate crc32cInit
          (commandTypeToNibble (ModelCommand.Literal B) false ::
            (natToNibblesLE 7 B.length ++ bytesToNibbles B ++
              [commandTypeToNibble (ModelCommand.Literal B) true]))) := rfl
  have htag : commandTypeToNibble (ModelCommand.Literal B) false = 3 := rfl
  have htagEnd : commandTypeToNibble (ModelCommand.Literal B) true = 15 := rfl
  set H : List Nat := commandTypeToNibble (ModelCommand.Literal B) false ::
    (natToNibblesLE 7 B.length ++ bytesToNibbles B ++
      [commandTypeToNibble (ModelCommand.Literal B) true]) with hH
  set T : List Nat := trailerNibbles (crc32cUpdate crc32cInit H) with hT
  have hHlen : H.length = 9 + 2 * B.length := by
    rw [hH]
    simp [natToNibblesLE_length, bytesToNibbles_length]
    omega
  have hU : encodeModel B = H ++ T := henc
  have hcons : encodeModel B =
      3 :: (natToNibblesLE 7 B.length ++
        (bytesToNibbles B ++ (15 :: T))) := by
    rw [hU, hH, htag, htagEnd]
    simp [List.append_assoc]
  have hslen : (encodeModel B).length = H.length + 16 := by
    rw [hU]
    simp [hT, trailerNibbles_length]
  have htake : (encodeModel B).take ((encodeModel B).length - 16) = H := by
    rw [hslen, hU]
    simp only [Nat.add_sub_cancel]
    exact List.take_left H T
  have htake' : (3 :: (natToNibblesLE 7 B.length ++
        (bytesToNibbles B ++ (15 :: T)))).take
      ((3 :: (natToNibblesLE 7 B.length ++
        (bytesToNibbles B ++ (15 :: T)))).length - 16) = H := by
    rw [← hcons]
    exact htake
  have hstep : ∀ r1 : List Nat, decodeModel (3 :: r1) =
      (parseNatLE 7 r1).bind fun lr =>
        (parseBytes lr.1 lr.2).bind fun br =>
          match br.2 with
          | [] => none
          | e :: r4 =>
            if e = 15 then
              if r4 = trailerNibbles (crc32cUpdate crc32cInit
                  ((3 :: r1).take ((3 :: r1).length - 16))) then
                some br.1
              else none
            else none := fun r1 => rfl
  rw [hcons, hstep, parseNatLE_encode 7 B.length _ hlen7, Option.some_bind]
  show (parseBytes B.length (bytesToNibbles B ++ (15 :: T))).bind _ = some B
  rw [parseBytes_encode B (15 :: T), Option.some_bind]
  show (if (15 : Nat) = 15 then _ else none) = some B
  rw [if_pos rfl, htake', if_pos rfl]

/-- Witness for C1: the spec's first concrete scenario, the byte `0x41`
(`'A'`). -/
theorem claim_C1_witness : decodeModel (encodeModel [65]) = some [65] :=
  claim_C1 [65] (by decide) (by decide)

end Divans
